import Mathlib

/-!
Verification of the lexer in `src/main.rs` of KermitPurple/basic_lisp.

The Rust source is a pull-based tokenizer: `TokenIterator` wraps a byte
iterator (chained with a trailing sentinel space by `From`) together with a
one-byte pushback slot `ungotten`.  `next()` runs a finite-state scan
(`Start`, `Ident`, `Int`, `Float`, `Error`) over the bytes, buffering the
current lexeme in `partial`, and emits `Result<Token, String>` values.

The embedding below models bytes as `Nat` (the Rust code compares
`byte as char` against ASCII ranges, which coincides with the numeric byte
value), byte iterators as `List Nat`, and the two panic sites
(`assert!(self.ungotten.is_none())` and the two `.unwrap()` calls on numeric
conversion) as explicit `fault` outcomes.  `Float` tokens carry their source
lexeme rather than an IEEE double: the `f64` stored by the Rust code is a
function of that lexeme, and `f64::from_str` acceptance on the lexeme shapes
the `Float` state can produce (`digit* '.' digit*`) is modelled exactly by
`f64Ok`.  Ghost outputs (the skipped-whitespace run and the consumed lexeme
of each call) are threaded through the scan so that round-trip properties
can be stated; they do not influence the modelled results.
-/

namespace BasicLisp

/-- Whitespace class of the Rust match: `' ' | '\n' | '\t' | '\r'`. -/
def wsB (b : Nat) : Bool := b == 32 || b == 10 || b == 9 || b == 13

/-- Letter class of the Rust match: `'a'..='z' | 'A'..='Z'`. -/
def letterB (b : Nat) : Bool := decide ((97 ≤ b ∧ b ≤ 122) ∨ (65 ≤ b ∧ b ≤ 90))

/-- Digit class of the Rust match: `'0'..='9'`. -/
def digitB (b : Nat) : Bool := decide (48 ≤ b ∧ b ≤ 57)

/-- Identifier-continuation class: `'a'..='z' | 'A'..='Z' | '0'..='9' | '_'`. -/
def idCharB (b : Nat) : Bool := letterB b || digitB b || b == 95

/-- The scanner states of `enum State` in `src/main.rs`. -/
inductive State where
  | start
  | ident
  | int
  | float
  | error
  deriving DecidableEq

/-- The token type of `enum Token` in `src/main.rs`.  `Ident` carries its text
as a byte list; `Int` carries the parsed `i64` value; `Float` carries its
source lexeme (the string handed to `f64::from_str`), since the stored double
is a function of that lexeme. -/
inductive Token where
  | lparen
  | rparen
  | ident (s : List Nat)
  | int (v : Int)
  | float (s : List Nat)
  deriving DecidableEq

/-- One element of the result sequence: `Ok(token)` or `Err(text)`. -/
inductive Item where
  | ok (t : Token)
  | err (s : List Nat)
  deriving DecidableEq

/-- The panic sites of `next()`: the pushback assertion, and the two
`.unwrap()` calls on `i64::from_str` / `f64::from_str`. -/
inductive FaultKind where
  | assertFailed
  | intParseFailed
  | floatParseFailed
  deriving DecidableEq

/-- The `TokenIterator` state: remaining byte iterator and pushback slot. -/
structure Lexer where
  it : List Nat
  ungotten : Option Nat
  deriving DecidableEq

/-- Outcome of one call to `next()`: a panic, `None` (end of the stream), or
`Some(item)` together with the successor iterator state. -/
inductive NextRes where
  | fault (k : FaultKind)
  | eos (l : Lexer)
  | item (i : Item) (l : Lexer)
  deriving DecidableEq

/-- Base-10 value of a digit run, as `i64::from_str` computes it. -/
def digitsVal (s : List Nat) : Nat := s.foldl (fun a b => a * 10 + (b - 48)) 0

/-- Largest `i64` value. -/
def i64Max : Nat := 2 ^ 63 - 1

/-- `i64::from_str` restricted to the strings the `Int` state can produce
(non-empty runs of decimal digits, no sign): it succeeds exactly when the
value fits in `i64`, and never wraps. -/
def i64FromDigits (s : List Nat) : Option Int :=
  if s ≠ [] ∧ s.all digitB = true ∧ digitsVal s ≤ i64Max then
    some (Int.ofNat (digitsVal s))
  else none

/-- `f64::from_str` acceptance restricted to the strings the `Float` state can
produce (`digit* '.' digit*`): Rust accepts such a string exactly when it
contains at least one digit (`"1."` and `".5"` parse, `"."` does not). -/
def f64Ok (s : List Nat) : Bool := s.any digitB

/-- Exact decimal value of a numeric lexeme `digit* ['.' digit*]`, as a
rational; used only to state what numeric value a lexeme denotes. -/
def decValue (s : List Nat) : ℚ :=
  (digitsVal (s.filter digitB) : ℚ) /
    (10 : ℚ) ^ ((s.dropWhile (fun b => !(b == 46))).drop 1).length

/-- The `return match state` of the boundary branch for non-`Start` states:
`Ident` emits its text, `Int`/`Float` run the numeric conversions (whose
`.unwrap()` panics become faults), `Error` emits the collected run. -/
def flushTok : State → List Nat → Sum FaultKind Item
  | State.ident, part => Sum.inr (Item.ok (Token.ident part))
  | State.int, part =>
    match i64FromDigits part with
    | some v => Sum.inr (Item.ok (Token.int v))
    | none => Sum.inl FaultKind.intParseFailed
  | State.float, part =>
    if f64Ok part then Sum.inr (Item.ok (Token.float part))
    else Sum.inl FaultKind.floatParseFailed
  | State.error, part => Sum.inr (Item.err part)
  | State.start, part => Sum.inr (Item.err part)

/-- The catch-all `_ =>` arm of the Rust match: in `Start` the offending byte
is consumed and reported alone; otherwise `assert!(self.ungotten.is_none())`
is checked (`slot` is the post-`take()` value of `ungotten`), the boundary
byte is pushed back, and the buffered lexeme is flushed.  The two trailing
ghost components are the skipped-whitespace run (empty here) and the consumed
lexeme. -/
def bound (st : State) (part : List Nat) (slot : Option Nat) (b : Nat)
    (rest : List Nat) : NextRes × List Nat × List Nat :=
  match st with
  | State.start => (NextRes.item (Item.err [b]) ⟨rest, slot⟩, [], [b])
  | _ =>
    match slot with
    | some _ => (NextRes.fault FaultKind.assertFailed, [], part)
    | none =>
      match flushTok st part with
      | Sum.inl k => (NextRes.fault k, [], part)
      | Sum.inr i => (NextRes.item i ⟨rest, some b⟩, [], part)

/-- The `while let` loop of `next()`.  `stream` is the byte sequence still to
be pulled (the drained pushback byte, if any, followed by the iterator) and
`slot` is the current value of `self.ungotten` after the iteration's
`take()` — the loop never refills it except at the returning pushback, so
recursive calls pass it through unchanged.  The two ghost outputs record the
skipped whitespace and the consumed lexeme of the call. -/
def scanGo (st : State) (part : List Nat) (slot : Option Nat)
    (stream : List Nat) : NextRes × List Nat × List Nat :=
  match stream with
  | [] => (NextRes.eos ⟨[], none⟩, [], part)
  | b :: rest =>
    match st with
    | State.start =>
      if wsB b then
        let r := scanGo State.start part slot rest
        (r.1, b :: r.2.1, r.2.2)
      else if b == 40 then (NextRes.item (Item.ok Token.lparen) ⟨rest, slot⟩, [], [b])
      else if b == 41 then (NextRes.item (Item.ok Token.rparen) ⟨rest, slot⟩, [], [b])
      else if letterB b || b == 95 then scanGo State.ident (part ++ [b]) slot rest
      else if digitB b then scanGo State.int (part ++ [b]) slot rest
      else if b == 46 then scanGo State.float (part ++ [b]) slot rest
      else bound State.start part slot b rest
    | State.int =>
      if b == 46 then scanGo State.float (part ++ [b]) slot rest
      else if letterB b then scanGo State.error (part ++ [b]) slot rest
      else if digitB b then scanGo State.int (part ++ [b]) slot rest
      else bound State.int part slot b rest
    | State.float =>
      if b == 46 || letterB b then scanGo State.error (part ++ [b]) slot rest
      else if digitB b then scanGo State.float (part ++ [b]) slot rest
      else bound State.float part slot b rest
    | State.ident =>
      if idCharB b then scanGo State.ident (part ++ [b]) slot rest
      else bound State.ident part slot b rest
    | State.error =>
      if idCharB b then scanGo State.error (part ++ [b]) slot rest
      else bound State.error part slot b rest

/-- One call to `next()`, with the ghost whitespace/lexeme outputs.  The
first `self.ungotten.take()` of the loop drains the pushback slot: its byte
(if any) is the first byte the loop sees, and the slot is `none` from then
on. -/
def lexNextFull (l : Lexer) : NextRes × List Nat × List Nat :=
  match l.ungotten with
  | some b => scanGo State.start [] none (b :: l.it)
  | none => scanGo State.start [] none l.it

/-- One call to `next()`, observable outcome only. -/
def lexNext (l : Lexer) : NextRes := (lexNextFull l).1

/-- The bytes still owned by the iterator: pushback byte first. -/
def streamOf (l : Lexer) : List Nat :=
  match l.ungotten with
  | some b => b :: l.it
  | none => l.it

/-- `impl From<T> for TokenIterator`: chain a sentinel space onto the input
and start with an empty pushback slot. -/
def mkLexer (input : List Nat) : Lexer := ⟨input ++ [32], none⟩

/-- Outcome of driving `next()` to completion: either a normal end with the
per-item records `(skipped whitespace, lexeme, item)` and the trailing
skipped whitespace, or a panic after the recorded items. -/
inductive RunOut where
  | done (steps : List (List Nat × List Nat × Item)) (tws : List Nat)
  | fault (steps : List (List Nat × List Nat × Item)) (k : FaultKind)
  deriving DecidableEq

/-- Fuelled driver: call `next()` repeatedly, recording each item with its
ghost whitespace/lexeme data.  `none` means the fuel ran out. -/
def lexRunF : Nat → Lexer → Option RunOut
  | 0, _ => none
  | fuel + 1, l =>
    match lexNextFull l with
    | (NextRes.eos _, ws, lex) => some (RunOut.done [] (ws ++ lex))
    | (NextRes.fault k, _, _) => some (RunOut.fault [] k)
    | (NextRes.item i l2, ws, lex) =>
      match lexRunF fuel l2 with
      | none => none
      | some (RunOut.done steps tws) => some (RunOut.done ((ws, lex, i) :: steps) tws)
      | some (RunOut.fault steps k) => some (RunOut.fault ((ws, lex, i) :: steps) k)

/-- Concatenation, in order, of each emitted item's skipped-whitespace run
followed by its source lexeme. -/
def stepsConcat (steps : List (List Nat × List Nat × Item)) : List Nat :=
  steps.foldr (fun x acc => x.1 ++ x.2.1 ++ acc) []

/-- A byte run consisting solely of whitespace. -/
def wsRun (s : List Nat) : Bool := s.all wsB

/-- `true` unless the outcome is the pushback-assertion panic. -/
def assertOk : NextRes → Bool
  | NextRes.fault FaultKind.assertFailed => false
  | _ => true

/-- Observable projection of a finished run: the emitted items in order, and
the terminating event (`none` for a normal end, `some k` for a panic). -/
def runObs : Option RunOut → Option (List Item × Option FaultKind)
  | none => none
  | some (RunOut.done steps _) => some (steps.map (fun x => x.2.2), none)
  | some (RunOut.fault steps k) => some (steps.map (fun x => x.2.2), some k)

/-- Result of one scan of the specification machine: end of input, a panic,
or an item together with the unconsumed remainder of the input. -/
inductive SpecRes where
  | eos
  | fault (k : FaultKind)
  | item (i : Item) (rest : List Nat)
  deriving DecidableEq

/-- Modelled from the spec: the transition table of section 4.1 with its
"end of input acts as an implicit boundary" rule — scanning the bare input
with no sentinel and no pushback slot, where exhaustion in a non-`Start`
state flushes the buffered partial token exactly as a boundary byte would,
and exhaustion in `Start` signals termination.  A boundary byte is left in
the returned remainder rather than pushed back. -/
def specScan (st : State) (part : List Nat) (stream : List Nat) : SpecRes :=
  match stream with
  | [] =>
    match st with
    | State.start => SpecRes.eos
    | _ =>
      match flushTok st part with
      | Sum.inl k => SpecRes.fault k
      | Sum.inr i => SpecRes.item i []
  | b :: rest =>
    match st with
    | State.start =>
      if wsB b then specScan State.start part rest
      else if b == 40 then SpecRes.item (Item.ok Token.lparen) rest
      else if b == 41 then SpecRes.item (Item.ok Token.rparen) rest
      else if letterB b || b == 95 then specScan State.ident (part ++ [b]) rest
      else if digitB b then specScan State.int (part ++ [b]) rest
      else if b == 46 then specScan State.float (part ++ [b]) rest
      else SpecRes.item (Item.err [b]) rest
    | State.int =>
      if b == 46 then specScan State.float (part ++ [b]) rest
      else if letterB b then specScan State.error (part ++ [b]) rest
      else if digitB b then specScan State.int (part ++ [b]) rest
      else
        match flushTok State.int part with
        | Sum.inl k => SpecRes.fault k
        | Sum.inr i => SpecRes.item i (b :: rest)
    | State.float =>
      if b == 46 || letterB b then specScan State.error (part ++ [b]) rest
      else if digitB b then specScan State.float (part ++ [b]) rest
      else
        match flushTok State.float part with
        | Sum.inl k => SpecRes.fault k
        | Sum.inr i => SpecRes.item i (b :: rest)
    | State.ident =>
      if idCharB b then specScan State.ident (part ++ [b]) rest
      else
        match flushTok State.ident part with
        | Sum.inl k => SpecRes.fault k
        | Sum.inr i => SpecRes.item i (b :: rest)
    | State.error =>
      if idCharB b then specScan State.error (part ++ [b]) rest
      else
        match flushTok State.error part with
        | Sum.inl k => SpecRes.fault k
        | Sum.inr i => SpecRes.item i (b :: rest)

/-- Fuelled driver for the specification machine: the emitted items in
order, and the terminating event. -/
def specRunF : Nat → List Nat → Option (List Item × Option FaultKind)
  | 0, _ => none
  | fuel + 1, s =>
    match specScan State.start [] s with
    | SpecRes.eos => some ([], none)
    | SpecRes.fault k => some ([], some k)
    | SpecRes.item i rest =>
      match specRunF fuel rest with
      | none => none
      | some (is, e) => some (i :: is, e)

/-- Byte list of an ASCII string literal, for concrete test inputs. -/
def bs (s : String) : List Nat := s.toList.map Char.toNat

/-- The malformed numeric lexemes of the error taxonomy: a digit run
immediately followed by a letter, a float run immediately followed by a
letter, or a float run containing a second decimal point — in each case
together with the identifier-class characters absorbed afterwards while in
the `Error` state. -/
def MalformedRun (run : List Nat) : Prop :=
  (∃ ds c tl, ds ≠ [] ∧ ds.all digitB = true ∧ letterB c = true ∧
    tl.all idCharB = true ∧ run = ds ++ c :: tl) ∨
  (∃ ds ds2 c tl, ds.all digitB = true ∧ ds2.all digitB = true ∧
    letterB c = true ∧ tl.all idCharB = true ∧
    run = ds ++ 46 :: ds2 ++ c :: tl) ∨
  (∃ ds ds2 tl, ds.all digitB = true ∧ ds2.all digitB = true ∧
    tl.all idCharB = true ∧ run = ds ++ 46 :: ds2 ++ 46 :: tl)

/-- Accounting specification for one call of the scan loop on the byte
sequence `s`, starting in state `st` with buffered lexeme `part`:
the ghost lexeme extends `part` by exactly the consumed non-whitespace
bytes, the ghost whitespace is a whitespace run (empty unless the call
began in `Start`), and the consumed bytes prefix `s` exactly, with the
successor iterator state owning the remainder. -/
def AcctRes (s : List Nat) (st : State) (part : List Nat)
    (r : NextRes × List Nat × List Nat) : Prop :=
  ∃ ext, r.2.2 = part ++ ext ∧ wsRun r.2.1 = true ∧
    (st ≠ State.start → r.2.1 = []) ∧
    (∀ l2, r.1 = NextRes.eos l2 → s = r.2.1 ++ ext) ∧
    (∀ i l2, r.1 = NextRes.item i l2 → s = r.2.1 ++ ext ++ streamOf l2)

/-! ## Byte-class facts -/

theorem wsB_iff (b : Nat) : wsB b = true ↔ b = 32 ∨ b = 10 ∨ b = 9 ∨ b = 13 := by
  simp [wsB]
  tauto

theorem letterB_iff (b : Nat) :
    letterB b = true ↔ (97 ≤ b ∧ b ≤ 122) ∨ (65 ≤ b ∧ b ≤ 90) := by
  simp [letterB]

theorem digitB_iff (b : Nat) : digitB b = true ↔ 48 ≤ b ∧ b ≤ 57 := by
  simp [digitB]

/-! ## Step lemmas: one loop iteration of `scanGo` per state and byte class -/

theorem step_nil (st : State) (part : List Nat) (slot : Option Nat) :
    scanGo st part slot [] = (NextRes.eos ⟨[], none⟩, [], part) := by
  cases st <;> rfl

theorem step_start_ws (part : List Nat) (slot : Option Nat) (b : Nat)
    (t : List Nat) (h : wsB b = true) :
    scanGo State.start part slot (b :: t) =
      ((scanGo State.start part slot t).1,
        b :: (scanGo State.start part slot t).2.1,
        (scanGo State.start part slot t).2.2) := by
  simp only [scanGo, h, if_true]

theorem step_start_lpar (part : List Nat) (slot : Option Nat) (t : List Nat) :
    scanGo State.start part slot (40 :: t) =
      (NextRes.item (Item.ok Token.lparen) ⟨t, slot⟩, [], [40]) := by
  simp [scanGo, wsB]

theorem step_start_rpar (part : List Nat) (slot : Option Nat) (t : List Nat) :
    scanGo State.start part slot (41 :: t) =
      (NextRes.item (Item.ok Token.rparen) ⟨t, slot⟩, [], [41]) := by
  simp [scanGo, wsB]

theorem step_start_id (part : List Nat) (slot : Option Nat) (b : Nat)
    (t : List Nat) (h : letterB b = true ∨ b = 95) :
    scanGo State.start part slot (b :: t) =
      scanGo State.ident (part ++ [b]) slot t := by
  have hb : (97 ≤ b ∧ b ≤ 122) ∨ (65 ≤ b ∧ b ≤ 90) ∨ b = 95 := by
    rcases h with h | h
    · rcases (letterB_iff b).mp h with h | h
      · exact Or.inl h
      · exact Or.inr (Or.inl h)
    · exact Or.inr (Or.inr h)
  simp only [scanGo]
  rw [if_neg (by simp [wsB]; omega), if_neg (by simp; omega),
    if_neg (by simp; omega), if_pos (by simp [letterB]; omega)]

theorem step_start_digit (part : List Nat) (slot : Option Nat) (b : Nat)
    (t : List Nat) (h : digitB b = true) :
    scanGo State.start part slot (b :: t) =
      scanGo State.int (part ++ [b]) slot t := by
  have hb : 48 ≤ b ∧ b ≤ 57 := (digitB_iff b).mp h
  simp only [scanGo]
  rw [if_neg (by simp [wsB]; omega), if_neg (by simp; omega),
    if_neg (by simp; omega), if_neg (by simp [letterB]; omega), if_pos h]

theorem step_start_dot (part : List Nat) (slot : Option Nat) (t : List Nat) :
    scanGo State.start part slot (46 :: t) =
      scanGo State.float (part ++ [46]) slot t := by
  simp [scanGo, wsB, letterB, digitB]

theorem step_start_other (part : List Nat) (slot : Option Nat) (b : Nat)
    (t : List Nat) (hw : wsB b = false) (h40 : b ≠ 40) (h41 : b ≠ 41)
    (hl : letterB b = false) (h95 : b ≠ 95) (hd : digitB b = false)
    (h46 : b ≠ 46) :
    scanGo State.start part slot (b :: t) =
      (NextRes.item (Item.err [b]) ⟨t, slot⟩, [], [b]) := by
  simp only [scanGo, bound]
  rw [if_neg (by simp [hw]), if_neg (by simp [h40]), if_neg (by simp [h41]),
    if_neg (by simp [hl, h95]), if_neg (by simp [hd]), if_neg (by simp [h46])]

theorem step_int_dot (part : List Nat) (slot : Option Nat) (t : List Nat) :
    scanGo State.int part slot (46 :: t) =
      scanGo State.float (part ++ [46]) slot t := by
  simp [scanGo]

theorem step_int_letter (part : List Nat) (slot : Option Nat) (b : Nat)
    (t : List Nat) (h : letterB b = true) :
    scanGo State.int part slot (b :: t) =
      scanGo State.error (part ++ [b]) slot t := by
  have hb : (97 ≤ b ∧ b ≤ 122) ∨ (65 ≤ b ∧ b ≤ 90) := (letterB_iff b).mp h
  simp only [scanGo]
  rw [if_neg (by simp; omega), if_pos h]

theorem step_int_digit (part : List Nat) (slot : Option Nat) (b : Nat)
    (t : List Nat) (h : digitB b = true) :
    scanGo State.int part slot (b :: t) =
      scanGo State.int (part ++ [b]) slot t := by
  have hb : 48 ≤ b ∧ b ≤ 57 := (digitB_iff b).mp h
  simp only [scanGo]
  rw [if_neg (by simp; omega), if_neg (by simp [letterB]; omega), if_pos h]

theorem step_int_bound (part : List Nat) (slot : Option Nat) (b : Nat)
    (t : List Nat) (h46 : b ≠ 46) (hl : letterB b = false)
    (hd : digitB b = false) :
    scanGo State.int part slot (b :: t) = bound State.int part slot b t := by
  simp only [scanGo]
  rw [if_neg (by simp [h46]), if_neg (by simp [hl]), if_neg (by simp [hd])]

theorem step_float_err (part : List Nat) (slot : Option Nat) (b : Nat)
    (t : List Nat) (h : b = 46 ∨ letterB b = true) :
    scanGo State.float part slot (b :: t) =
      scanGo State.error (part ++ [b]) slot t := by
  simp only [scanGo]
  rw [if_pos (by rcases h with h | h <;> simp [h])]

theorem step_float_digit (part : List Nat) (slot : Option Nat) (b : Nat)
    (t : List Nat) (h : digitB b = true) :
    scanGo State.float part slot (b :: t) =
      scanGo State.float (part ++ [b]) slot t := by
  have hb : 48 ≤ b ∧ b ≤ 57 := (digitB_iff b).mp h
  simp only [scanGo]
  rw [if_neg (by simp [letterB]; omega), if_pos h]

theorem step_float_bound (part : List Nat) (slot : Option Nat) (b : Nat)
    (t : List Nat) (h46 : b ≠ 46) (hl : letterB b = false)
    (hd : digitB b = false) :
    scanGo State.float part slot (b :: t) = bound State.float part slot b t := by
  simp only [scanGo]
  rw [if_neg (by simp [h46, hl]), if_neg (by simp [hd])]

theorem step_ident_cont (part : List Nat) (slot : Option Nat) (b : Nat)
    (t : List Nat) (h : idCharB b = true) :
    scanGo State.ident part slot (b :: t) =
      scanGo State.ident (part ++ [b]) slot t := by
  simp only [scanGo, h, if_true]

theorem step_ident_bound (part : List Nat) (slot : Option Nat) (b : Nat)
    (t : List Nat) (h : idCharB b = false) :
    scanGo State.ident part slot (b :: t) = bound State.ident part slot b t := by
  simp only [scanGo, h, Bool.false_eq_true, if_false]

theorem step_error_cont (part : List Nat) (slot : Option Nat) (b : Nat)
    (t : List Nat) (h : idCharB b = true) :
    scanGo State.error part slot (b :: t) =
      scanGo State.error (part ++ [b]) slot t := by
  simp only [scanGo, h, if_true]

theorem step_error_bound (part : List Nat) (slot : Option Nat) (b : Nat)
    (t : List Nat) (h : idCharB b = false) :
    scanGo State.error part slot (b :: t) = bound State.error part slot b t := by
  simp only [scanGo, h, Bool.false_eq_true, if_false]

/-! ## Shape facts about `flushTok`, `bound` and `scanGo` -/

theorem flushTok_fault (st : State) (part : List Nat) (k : FaultKind)
    (h : flushTok st part = Sum.inl k) :
    k = FaultKind.intParseFailed ∨ k = FaultKind.floatParseFailed := by
  cases st <;> simp only [flushTok] at h
  · exact absurd h (by simp)
  · exact absurd h (by simp)
  · rcases hi : i64FromDigits part with _ | v <;> rw [hi] at h
    · exact Or.inl (Sum.inl.injEq .. ▸ h).symm
    · exact absurd h (by simp)
  · by_cases hf : f64Ok part = true <;> simp only [hf] at h
    · exact absurd h (by simp)
    · simp only [Bool.false_eq_true, if_false] at h
      exact Or.inr (Sum.inl.injEq .. ▸ h).symm
  · exact absurd h (by simp)

theorem bound_not_eos (st : State) (part : List Nat) (slot : Option Nat)
    (b : Nat) (rest : List Nat) (l2 : Lexer) :
    (bound st part slot b rest).1 ≠ NextRes.eos l2 := by
  cases st <;> simp only [bound] <;>
    try (cases slot <;> simp only [] <;>
      try rcases h : flushTok _ part with k | i <;> simp only [h])
  all_goals simp

theorem bound_fault_none (st : State) (part : List Nat) (b : Nat)
    (rest : List Nat) (k : FaultKind)
    (h : (bound st part none b rest).1 = NextRes.fault k) :
    k = FaultKind.intParseFailed ∨ k = FaultKind.floatParseFailed := by
  cases st <;> simp only [bound] at h
  case start => exact absurd h (by simp)
  all_goals
    rcases hf : flushTok _ part with k' | i <;> rw [hf] at h
  all_goals simp only [] at h
  all_goals first
    | (exact (NextRes.fault.injEq .. ▸ h) ▸ flushTok_fault _ part k' hf)
    | exact absurd h (by simp)

theorem eos_state (slot : Option Nat) (s : List Nat) :
    ∀ (st : State) (part : List Nat) (l2 : Lexer),
    (scanGo st part slot s).1 = NextRes.eos l2 → l2 = ⟨[], none⟩ := by
  induction s with
  | nil =>
    intro st part l2 h
    rw [step_nil] at h
    exact (NextRes.eos.inj h).symm
  | cons b rest ih =>
    intro st part l2 h
    cases st <;> simp only [scanGo] at h <;> split_ifs at h <;>
      first
        | exact ih _ _ _ h
        | exact absurd h (bound_not_eos _ _ _ _ _ _)

theorem fault_kinds (s : List Nat) :
    ∀ (st : State) (part : List Nat) (k : FaultKind),
    (scanGo st part none s).1 = NextRes.fault k →
    k = FaultKind.intParseFailed ∨ k = FaultKind.floatParseFailed := by
  induction s with
  | nil =>
    intro st part k h
    rw [step_nil] at h
    exact absurd h (by simp)
  | cons b rest ih =>
    intro st part k h
    cases st <;> simp only [scanGo] at h <;> split_ifs at h <;>
      first
        | exact ih _ _ _ h
        | exact bound_fault_none _ _ _ _ _ h

/-! ## Run lemmas: whole character runs -/

theorem ws_skip (wsp : List Nat) :
    ∀ (part t : List Nat) (slot : Option Nat), wsRun wsp = true →
    scanGo State.start part slot (wsp ++ t) =
      ((scanGo State.start part slot t).1,
        wsp ++ (scanGo State.start part slot t).2.1,
        (scanGo State.start part slot t).2.2) := by
  induction wsp with
  | nil => intro part t slot _; rfl
  | cons c cs ih =>
    intro part t slot h
    obtain ⟨hc, hcs⟩ : wsB c = true ∧ cs.all wsB = true := by
      simpa [wsRun] using h
    rw [List.cons_append, step_start_ws _ _ _ _ hc, ih part t slot hcs]
    rfl

theorem int_run (ds : List Nat) :
    ∀ (part t : List Nat) (slot : Option Nat), ds.all digitB = true →
    scanGo State.int part slot (ds ++ t) = scanGo State.int (part ++ ds) slot t := by
  induction ds with
  | nil => intro part t slot _; simp
  | cons d ds ih =>
    intro part t slot h
    obtain ⟨hd, hds⟩ : digitB d = true ∧ ds.all digitB = true := by simpa using h
    rw [List.cons_append, step_int_digit _ _ _ _ hd, ih _ t slot hds,
      List.append_assoc]
    rfl

theorem float_run (ds : List Nat) :
    ∀ (part t : List Nat) (slot : Option Nat), ds.all digitB = true →
    scanGo State.float part slot (ds ++ t) = scanGo State.float (part ++ ds) slot t := by
  induction ds with
  | nil => intro part t slot _; simp
  | cons d ds ih =>
    intro part t slot h
    obtain ⟨hd, hds⟩ : digitB d = true ∧ ds.all digitB = true := by simpa using h
    rw [List.cons_append, step_float_digit _ _ _ _ hd, ih _ t slot hds,
      List.append_assoc]
    rfl

theorem err_absorb (tl : List Nat) :
    ∀ (part t : List Nat) (b : Nat), tl.all idCharB = true → idCharB b = false →
    scanGo State.error part none (tl ++ b :: t) =
      (NextRes.item (Item.err (part ++ tl)) ⟨t, some b⟩, [], part ++ tl) := by
  induction tl with
  | nil =>
    intro part t b _ hb
    rw [List.nil_append, step_error_bound _ _ _ _ hb]
    simp [bound, flushTok]
  | cons c cs ih =>
    intro part t b h hb
    obtain ⟨hc, hcs⟩ : idCharB c = true ∧ cs.all idCharB = true := by simpa using h
    rw [List.cons_append, step_error_cont _ _ _ _ hc, ih _ t b hcs hb,
      List.append_assoc]
    rfl

/-! ## Evaluating the numeric conversion at a boundary -/

theorem bound_int_ok (part : List Nat) (b : Nat) (rest : List Nat)
    (h1 : part ≠ []) (h2 : part.all digitB = true)
    (h3 : digitsVal part ≤ i64Max) :
    bound State.int part none b rest =
      (NextRes.item (Item.ok (Token.int (Int.ofNat (digitsVal part))))
        ⟨rest, some b⟩, [], part) := by
  simp [bound, flushTok, i64FromDigits, h1, h2, h3]

theorem bound_int_overflow (part : List Nat) (b : Nat) (rest : List Nat)
    (h3 : i64Max < digitsVal part) :
    bound State.int part none b rest =
      (NextRes.fault FaultKind.intParseFailed, [], part) := by
  have : i64FromDigits part = none := by
    simp only [i64FromDigits, ite_eq_right_iff]
    intro ⟨_, _, hle⟩
    omega
  simp [bound, flushTok, this]

/-- Entering the `Float` state through an optional digit run and a dot. -/
theorem enter_float (ds : List Nat) (t : List Nat) (hds : ds.all digitB = true) :
    scanGo State.start [] none (ds ++ 46 :: t) =
      scanGo State.float (ds ++ [46]) none t := by
  cases ds with
  | nil => exact step_start_dot [] none t
  | cons d ds2 =>
    obtain ⟨hd, hds2⟩ : digitB d = true ∧ ds2.all digitB = true := by simpa using hds
    rw [List.cons_append, step_start_digit _ _ _ _ hd,
      int_run ds2 _ _ none hds2, step_int_dot]
    rfl

/-- From the `Float` state, a letter or a second dot drives the scan into
`Error`, which then absorbs identifier-class characters up to a boundary. -/
theorem float_then_err (ds2 tl : List Nat) (c b : Nat) (part : List Nat)
    (hds2 : ds2.all digitB = true) (hc : c = 46 ∨ letterB c = true)
    (htl : tl.all idCharB = true) (hb : idCharB b = false) (rest : List Nat) :
    scanGo State.float part none (ds2 ++ c :: (tl ++ b :: rest)) =
      (NextRes.item (Item.err (part ++ ds2 ++ c :: tl)) ⟨rest, some b⟩,
        [], part ++ ds2 ++ c :: tl) := by
  rw [float_run ds2 _ _ none hds2, step_float_err _ _ _ _ hc,
    err_absorb tl _ _ b htl hb]
  simp

/-- Claim C3: for every maximal decimal digit run not adjacent to letters
(preceded by optional whitespace, followed by any non-digit, non-letter,
non-dot boundary byte — whitespace, parenthesis, or the internal sentinel
that realises end of input), `next()` emits `Int` of the run's base-10 value
when that value fits in `i64`; a run whose value exceeds `i64::MAX` hits the
explicit `i64::from_str` error path (an `unwrap` panic, modelled as
`intParseFailed`) and is never silently wrapped into an `Int`. -/
theorem c3_int_value_and_overflow (wsp s : List Nat) (b : Nat) (rest : List Nat)
    (hws : wsRun wsp = true) (hne : s ≠ []) (hdig : s.all digitB = true)
    (hbd : digitB b = false) (hbl : letterB b = false) (hb46 : b ≠ 46) :
    (digitsVal s ≤ i64Max →
      lexNextFull ⟨wsp ++ s ++ b :: rest, none⟩ =
        (NextRes.item (Item.ok (Token.int (Int.ofNat (digitsVal s))))
          ⟨rest, some b⟩, wsp, s)) ∧
    (i64Max < digitsVal s →
      lexNextFull ⟨wsp ++ s ++ b :: rest, none⟩ =
        (NextRes.fault FaultKind.intParseFailed, wsp, s)) := by
  obtain ⟨d, ds, rfl⟩ : ∃ d ds, s = d :: ds := by
    cases s with
    | nil => exact absurd rfl hne
    | cons d ds => exact ⟨d, ds, rfl⟩
  obtain ⟨hd, hds⟩ : digitB d = true ∧ ds.all digitB = true := by simpa using hdig
  have hlex : lexNextFull ⟨wsp ++ (d :: ds) ++ b :: rest, none⟩ =
      scanGo State.start [] none (wsp ++ ((d :: ds) ++ b :: rest)) := by
    rw [← List.append_assoc]
    rfl
  have hinner : scanGo State.start [] none ((d :: ds) ++ b :: rest) =
      bound State.int (d :: ds) none b rest := by
    rw [List.cons_append, step_start_digit _ _ _ _ hd,
      int_run ds _ _ none hds, step_int_bound _ _ _ _ hb46 hbl hbd]
    rfl
  constructor
  · intro hle
    rw [hlex, ws_skip wsp _ _ _ hws, hinner,
      bound_int_ok _ b rest hne hdig hle]
    simp
  · intro hgt
    rw [hlex, ws_skip wsp _ _ _ hws, hinner, bound_int_overflow _ b rest hgt]
    simp

/-- Witness for C3 at the concrete run `"123"` followed by a space. -/
theorem c3_int_value_and_overflow_witness :
    digitsVal [49, 50, 51] ≤ i64Max ∧
    lexNextFull ⟨[] ++ [49, 50, 51] ++ 32 :: [], none⟩ =
      (NextRes.item (Item.ok (Token.int (Int.ofNat (digitsVal [49, 50, 51]))))
        ⟨[], some 32⟩, [], [49, 50, 51]) :=
  ⟨by decide,
    (c3_int_value_and_overflow [] [49, 50, 51] 32 [] (by decide) (by decide)
      (by decide) (by decide) (by decide) (by decide)).1 (by decide)⟩

/-- Claim C5: every malformed numeric lexeme — a digit run followed by a
letter, a float run followed by a letter, or a float run with a second
decimal point, each together with the identifier-class characters absorbed
afterwards in the `Error` state — is reported by `next()` as a `LexError`
carrying the full accumulated run, not just a suffix. -/
theorem c5_malformed_full_run (run : List Nat) (b : Nat) (rest : List Nat)
    (hm : MalformedRun run) (hb : idCharB b = false) :
    lexNextFull ⟨run ++ b :: rest, none⟩ =
      (NextRes.item (Item.err run) ⟨rest, some b⟩, [], run) := by
  show scanGo State.start [] none (run ++ b :: rest) = _
  rcases hm with ⟨ds, c, tl, hne, hds, hc, htl, rfl⟩ |
    ⟨ds, ds2, c, tl, hds, hds2, hc, htl, rfl⟩ |
    ⟨ds, ds2, tl, hds, hds2, htl, rfl⟩
  · obtain ⟨d, ds2, rfl⟩ : ∃ d ds2, ds = d :: ds2 := by
      cases ds with
      | nil => exact absurd rfl hne
      | cons d ds2 => exact ⟨d, ds2, rfl⟩
    obtain ⟨hd, hds2⟩ : digitB d = true ∧ ds2.all digitB = true := by simpa using hds
    have e1 : ((d :: ds2) ++ c :: tl) ++ b :: rest =
        d :: (ds2 ++ c :: (tl ++ b :: rest)) := by simp
    rw [e1, step_start_digit _ _ _ _ hd, int_run ds2 _ _ none hds2,
      step_int_letter _ _ _ _ hc, err_absorb tl _ _ b htl hb]
    simp
  · have e1 : (ds ++ 46 :: ds2 ++ c :: tl) ++ b :: rest =
        ds ++ 46 :: (ds2 ++ c :: (tl ++ b :: rest)) := by simp
    rw [e1, enter_float ds _ hds,
      float_then_err ds2 tl c b _ hds2 (Or.inr hc) htl hb rest]
    simp
  · have e1 : (ds ++ 46 :: ds2 ++ 46 :: tl) ++ b :: rest =
        ds ++ 46 :: (ds2 ++ 46 :: (tl ++ b :: rest)) := by simp
    rw [e1, enter_float ds _ hds,
      float_then_err ds2 tl 46 b _ hds2 (Or.inl rfl) htl hb rest]
    simp

/-- Witness for C5 at the concrete run `"123abc"` followed by a space:
`next()` reports `LexError("123abc")`, not just a suffix. -/
theorem c5_malformed_full_run_witness :
    lexNextFull ⟨[49, 50, 51, 97, 98, 99] ++ 32 :: [], none⟩ =
      (NextRes.item (Item.err [49, 50, 51, 97, 98, 99]) ⟨[], some 32⟩,
        [], [49, 50, 51, 97, 98, 99]) :=
  c5_malformed_full_run [49, 50, 51, 97, 98, 99] 32 []
    (Or.inl ⟨[49, 50, 51], 97, [98, 99], by decide, by decide, by decide,
      by decide, rfl⟩) (by decide)

/-- Any fault a call to `next()` can raise comes from one of the two numeric
`unwrap` sites, never from the pushback assertion. -/
theorem lexNext_fault_numeric (l : Lexer) (k : FaultKind)
    (h : lexNext l = NextRes.fault k) :
    k = FaultKind.intParseFailed ∨ k = FaultKind.floatParseFailed := by
  rcases l with ⟨it, u⟩
  cases u <;> exact fault_kinds _ _ _ _ h

/-- Every `eos` outcome of `next()` carries the terminal iterator state. -/
theorem lexNext_eos_terminal (l : Lexer) (l2 : Lexer)
    (h : lexNext l = NextRes.eos l2) : l2 = ⟨[], none⟩ := by
  rcases l with ⟨it, u⟩
  cases u <;> exact eos_state _ _ _ _ _ h

/-- Claim C1, counterexample: on the input `"."` the single call to `next()`
does not surface an error value — it hits `f64::from_str(".").unwrap()`,
an unwound panic, so a fatal, unrecoverable error does exist at this
layer. -/
theorem c1_counterexample :
    lexNext (mkLexer [46]) = NextRes.fault FaultKind.floatParseFailed := by
  decide

/-- Claim C1 (amended): every lexical classification error is surfaced as an
`Err` value in the result sequence and the lexer remains callable on the
returned state; the only thrown/unwound faults `next()` can raise are the
numeric-conversion `unwrap` panics (a digit run exceeding `i64::MAX`, or a
float lexeme with no digits, i.e. `"."`) — in particular the pushback
assertion never unwinds. -/
theorem c1_faults_only_numeric_conversion (l : Lexer) (k : FaultKind)
    (h : lexNext l = NextRes.fault k) :
    k = FaultKind.intParseFailed ∨ k = FaultKind.floatParseFailed :=
  lexNext_fault_numeric l k h

/-- Witness for the amended C1 at the input `"."`. -/
theorem c1_faults_only_numeric_conversion_witness :
    FaultKind.floatParseFailed = FaultKind.intParseFailed ∨
      FaultKind.floatParseFailed = FaultKind.floatParseFailed :=
  c1_faults_only_numeric_conversion (mkLexer [46]) FaultKind.floatParseFailed
    (by decide)

/-- Claim C2, counterexample: on the input `"."` the scan panics before
emitting anything, so the concatenation of all emitted lexemes and skipped
whitespace (the empty sequence) does not reproduce the input. -/
theorem c2_counterexample :
    lexRunF 2 (mkLexer [46]) = some (RunOut.fault [] FaultKind.floatParseFailed) ∧
    stepsConcat [] ++ ([] : List Nat) ≠ [46] :=
  ⟨by decide, by decide⟩

/-- Claim C4: on the input `"(abc 123 1.3 =)"`, repeated calls to `next()`
produce exactly `LParen`, `Ident("abc")`, `Int(123)`, the `Float` token with
lexeme `"1.3"` (whose decimal value is 13/10, the value `f64::from_str`
rounds to the double `1.3`), `LexError("=")`, `RParen`, and then the end
signal (the `done` outcome of the driver). -/
theorem c4_example_sequence :
    lexRunF 8 (mkLexer (bs "(abc 123 1.3 =)")) = some (RunOut.done
      [([], [40], Item.ok Token.lparen),
       ([], [97, 98, 99], Item.ok (Token.ident [97, 98, 99])),
       ([32], [49, 50, 51], Item.ok (Token.int 123)),
       ([32], [49, 46, 51], Item.ok (Token.float [49, 46, 51])),
       ([32], [61], Item.err [61]),
       ([], [41], Item.ok Token.rparen)] [32]) ∧
    decValue [49, 46, 51] = 13 / 10 :=
  ⟨by decide, by show ((13 : ℕ) : ℚ) / (10 : ℚ) ^ 1 = 13 / 10; norm_num⟩

/-- Claim C7: the lookahead is a single `Option` slot, and the pushback
assertion guarding it never fails on any call to `next()`, from any iterator
state: the slot is always drained by the loop's `take()` before the boundary
branch writes it. -/
theorem c7_pushback_assert_never_fails (l : Lexer) :
    assertOk (lexNext l) = true := by
  rcases hk : lexNext l with k | l2 | ⟨i, l2⟩
  · rcases lexNext_fault_numeric l k hk with h | h <;> rw [h] <;> rfl
  · rfl
  · rfl

/-- Claim C8: once `next()` signals end, the iterator is in the terminal
state `⟨[], none⟩`, and `next()` on that state signals end again with the
same state — so every subsequent call also signals end. -/
theorem c8_termination_idempotent (l l2 : Lexer)
    (h : lexNext l = NextRes.eos l2) :
    l2 = ⟨[], none⟩ ∧ lexNext l2 = NextRes.eos l2 := by
  have h2 : l2 = ⟨[], none⟩ := lexNext_eos_terminal l l2 h
  subst h2
  exact ⟨rfl, rfl⟩

/-- Witness for C8 at the empty input. -/
theorem c8_termination_idempotent_witness :
    (⟨[], none⟩ : Lexer) = ⟨[], none⟩ ∧
      lexNext (⟨[], none⟩ : Lexer) = NextRes.eos ⟨[], none⟩ :=
  c8_termination_idempotent (mkLexer []) ⟨[], none⟩ (by decide)

theorem filter_digits_dot (ds : List Nat) (hdig : ds.all digitB = true) :
    (ds ++ [46]).filter digitB = ds := by
  rw [List.filter_append]
  have h1 : ds.filter digitB = ds := List.filter_eq_self.mpr (by simpa using hdig)
  rw [h1]
  simp [digitB]

theorem dropWhile_digits_dot (ds tl : List Nat) (hdig : ds.all digitB = true) :
    (ds ++ 46 :: tl).dropWhile (fun b => !(b == 46)) = 46 :: tl := by
  induction ds with
  | nil => simp [List.dropWhile_cons]
  | cons d ds2 ih =>
    obtain ⟨hd, hds2⟩ : digitB d = true ∧ ds2.all digitB = true := by
      simpa using hdig
    have hne : (d == 46) = false := by
      have := (digitB_iff d).mp hd
      simp
      omega
    rw [List.cons_append, List.dropWhile_cons]
    simp only [hne, Bool.not_false, if_true]
    exact ih hds2

/-- The decimal value of a digit run with one trailing dot is the run's
base-10 integer value (`"1."` denotes 1, which Rust parses to `1.0`). -/
theorem decValue_digits_dot (ds : List Nat) (hdig : ds.all digitB = true) :
    decValue (ds ++ [46]) = (digitsVal ds : ℚ) := by
  unfold decValue
  rw [filter_digits_dot ds hdig, dropWhile_digits_dot ds [] hdig]
  simp

theorem f64Ok_digits_dot (ds : List Nat) (hne : ds ≠ [])
    (hdig : ds.all digitB = true) : f64Ok (ds ++ [46]) = true := by
  obtain ⟨d, ds2, rfl⟩ : ∃ d ds2, ds = d :: ds2 := by
    cases ds with
    | nil => exact absurd rfl hne
    | cons d ds2 => exact ⟨d, ds2, rfl⟩
  obtain ⟨hd, _⟩ : digitB d = true ∧ ds2.all digitB = true := by simpa using hdig
  simp [f64Ok, hd]

theorem bound_float_ok (part : List Nat) (b : Nat) (rest : List Nat)
    (h : f64Ok part = true) :
    bound State.float part none b rest =
      (NextRes.item (Item.ok (Token.float part)) ⟨rest, some b⟩, [], part) := by
  simp [bound, flushTok, h]

/-- Claim C9: for every digit run with exactly one trailing decimal point at
a token boundary (preceded by optional whitespace, followed by any
non-digit, non-letter, non-dot boundary byte — whitespace, parenthesis, or
the internal sentinel that realises end of input), `next()` emits the
`Float` token with the run's lexeme, whose decimal value is the run's
base-10 value (`Float(1.0)` for `"1."`), rather than an error; and on input
`"."` alone the `Float` branch is still taken with a buffer containing no
digits — where `f64::from_str(".").unwrap()` panics. -/
theorem c9_trailing_dot_float (wsp ds : List Nat) (b : Nat) (rest : List Nat)
    (hws : wsRun wsp = true) (hne : ds ≠ []) (hdig : ds.all digitB = true)
    (hbd : digitB b = false) (hbl : letterB b = false) (hb46 : b ≠ 46) :
    lexNextFull ⟨wsp ++ ds ++ 46 :: b :: rest, none⟩ =
      (NextRes.item (Item.ok (Token.float (ds ++ [46]))) ⟨rest, some b⟩,
        wsp, ds ++ [46]) ∧
    decValue (ds ++ [46]) = (digitsVal ds : ℚ) ∧
    lexNextFull (mkLexer [46]) =
      (NextRes.fault FaultKind.floatParseFailed, [], [46]) := by
  refine ⟨?_, decValue_digits_dot ds hdig, by decide⟩
  have hlex : lexNextFull ⟨wsp ++ ds ++ 46 :: b :: rest, none⟩ =
      scanGo State.start [] none (wsp ++ (ds ++ 46 :: b :: rest)) := by
    rw [← List.append_assoc]
    rfl
  have hinner : scanGo State.start [] none (ds ++ 46 :: b :: rest) =
      (NextRes.item (Item.ok (Token.float (ds ++ [46]))) ⟨rest, some b⟩,
        [], ds ++ [46]) := by
    rw [enter_float ds _ hdig, step_float_bound _ _ _ _ hb46 hbl hbd,
      bound_float_ok _ b rest (f64Ok_digits_dot ds hne hdig)]
  rw [hlex, ws_skip wsp _ _ _ hws, hinner]
  simp

/-- Witness for C9 at the concrete run `"1."` followed by a space. -/
theorem c9_trailing_dot_float_witness :
    lexNextFull ⟨[] ++ [49] ++ 46 :: 32 :: [], none⟩ =
      (NextRes.item (Item.ok (Token.float ([49] ++ [46]))) ⟨[], some 32⟩,
        [], [49] ++ [46]) ∧
    decValue ([49] ++ [46]) = (digitsVal [49] : ℚ) ∧
    lexNextFull (mkLexer [46]) =
      (NextRes.fault FaultKind.floatParseFailed, [], [46]) :=
  c9_trailing_dot_float [] [49] 32 [] (by decide) (by decide) (by decide)
    (by decide) (by decide) (by decide)

/-- Claim C10: an underscore immediately after a digit run is an ordinary
boundary, not a malformed-literal error: on input `"1_"` the lexer emits
`Int(1)` and then `Ident("_")` and ends. -/
theorem c10_underscore_after_digits :
    lexRunF 4 (mkLexer [49, 95]) = some (RunOut.done
      [([], [49], Item.ok (Token.int 1)),
       ([], [95], Item.ok (Token.ident [95]))] [32]) := by
  decide

/-! ## Per-call accounting: the consumed bytes prefix the stream exactly -/

theorem acct_ws (b : Nat) (rest : List Nat) (part : List Nat) (hw : wsB b = true)
    (r : NextRes × List Nat × List Nat)
    (ih : AcctRes rest State.start part r) :
    AcctRes (b :: rest) State.start part (r.1, b :: r.2.1, r.2.2) := by
  obtain ⟨ext, he, hws, _, heos, hitem⟩ := ih
  refine ⟨ext, he, ?_, fun h => absurd rfl h, ?_, ?_⟩
  · show (b :: r.2.1).all wsB = true
    rw [List.all_cons, hw, Bool.true_and]
    exact hws
  · intro l2 h
    rw [List.cons_append]
    exact congrArg (b :: ·) (heos l2 h)
  · intro i l2 h
    rw [List.cons_append]
    exact congrArg (b :: ·) (hitem i l2 h)

theorem acct_push (b : Nat) (rest : List Nat) (st st2 : State) (part : List Nat)
    (hst2 : st2 ≠ State.start) (r : NextRes × List Nat × List Nat)
    (ih : AcctRes rest st2 (part ++ [b]) r) :
    AcctRes (b :: rest) st part r := by
  obtain ⟨ext, he, hws, hemp, heos, hitem⟩ := ih
  have h0 : r.2.1 = [] := hemp hst2
  refine ⟨b :: ext, ?_, hws, fun _ => h0, ?_, ?_⟩
  · rw [he, List.append_assoc]
    rfl
  · intro l2 h
    have h1 : rest = ext := by simpa [h0] using heos l2 h
    simp [h0, h1]
  · intro i l2 h
    have h1 : rest = ext ++ streamOf l2 := by simpa [h0] using hitem i l2 h
    simp [h0, h1]

theorem acct_consume_one (b : Nat) (rest : List Nat) (i : Item) :
    AcctRes (b :: rest) State.start [] (NextRes.item i ⟨rest, none⟩, [], [b]) := by
  refine ⟨[b], rfl, rfl, fun _ => rfl, fun l2 h => by simp at h,
    fun i2 l2 h => ?_⟩
  injection h with h1 h2
  subst h2
  rfl

theorem acct_bound (st : State) (part : List Nat) (b : Nat) (rest : List Nat)
    (hst : st ≠ State.start) :
    AcctRes (b :: rest) st part (bound st part none b rest) := by
  have hb : bound st part none b rest =
      (match flushTok st part with
        | Sum.inl k => (NextRes.fault k, [], part)
        | Sum.inr i => (NextRes.item i ⟨rest, some b⟩, [], part)) := by
    cases st
    · exact absurd rfl hst
    all_goals rfl
  rcases hf : flushTok st part with k | i <;> rw [hf] at hb <;> rw [hb]
  · exact ⟨[], by simp, rfl, fun _ => rfl, fun l2 h => by simp at h,
      fun i2 l2 h => by simp at h⟩
  · refine ⟨[], by simp, rfl, fun _ => rfl, fun l2 h => by simp at h,
      fun i2 l2 h => ?_⟩
    injection h with h1 h2
    subst h2
    rfl

/-- One call of the scan, started in a reachable configuration, consumes an
exact prefix of its stream: the skipped whitespace, then the lexeme bytes,
with the successor state owning the remainder. -/
theorem scan_acct (s : List Nat) :
    ∀ (st : State) (part : List Nat), (st = State.start → part = []) →
    AcctRes s st part (scanGo st part none s) := by
  induction s with
  | nil =>
    intro st part _
    rw [step_nil]
    exact ⟨[], by simp, rfl, fun _ => rfl, fun l2 _ => rfl,
      fun i l2 h => by simp at h⟩
  | cons b rest ih =>
    intro st part hp
    cases st
    case start =>
      have hp0 : part = [] := hp rfl
      subst hp0
      by_cases hw : wsB b = true
      · rw [step_start_ws _ _ _ _ hw]
        exact acct_ws b rest [] hw _ (ih State.start [] (fun _ => rfl))
      · by_cases h40 : b = 40
        · subst h40
          rw [step_start_lpar]
          exact acct_consume_one 40 rest _
        · by_cases h41 : b = 41
          · subst h41
            rw [step_start_rpar]
            exact acct_consume_one 41 rest _
          · by_cases hid : letterB b = true ∨ b = 95
            · rw [step_start_id _ _ _ _ hid]
              exact acct_push b rest _ State.ident [] (by simp) _
                (ih State.ident [b] (by simp))
            · push_neg at hid
              by_cases hd : digitB b = true
              · rw [step_start_digit _ _ _ _ hd]
                exact acct_push b rest _ State.int [] (by simp) _
                  (ih State.int [b] (by simp))
              · by_cases h46 : b = 46
                · subst h46
                  rw [step_start_dot]
                  exact acct_push 46 rest _ State.float [] (by simp) _
                    (ih State.float [46] (by simp))
                · rw [step_start_other [] none b rest
                    (by simpa using hw) h40 h41
                    (by simpa using hid.1) hid.2
                    (by simpa using hd) h46]
                  exact acct_consume_one b rest _
    case int =>
      by_cases h46 : b = 46
      · subst h46
        rw [step_int_dot]
        exact acct_push 46 rest _ State.float part (by simp) _
          (ih State.float (part ++ [46]) (by simp))
      · by_cases hl : letterB b = true
        · rw [step_int_letter _ _ _ _ hl]
          exact acct_push b rest _ State.error part (by simp) _
            (ih State.error (part ++ [b]) (by simp))
        · by_cases hd : digitB b = true
          · rw [step_int_digit _ _ _ _ hd]
            exact acct_push b rest _ State.int part (by simp) _
              (ih State.int (part ++ [b]) (by simp))
          · rw [step_int_bound _ _ _ _ h46 (by simpa using hl) (by simpa using hd)]
            exact acct_bound State.int part b rest (by simp)
    case float =>
      by_cases hfe : b = 46 ∨ letterB b = true
      · rw [step_float_err _ _ _ _ hfe]
        exact acct_push b rest _ State.error part (by simp) _
          (ih State.error (part ++ [b]) (by simp))
      · push_neg at hfe
        by_cases hd : digitB b = true
        · rw [step_float_digit _ _ _ _ hd]
          exact acct_push b rest _ State.float part (by simp) _
            (ih State.float (part ++ [b]) (by simp))
        · rw [step_float_bound _ _ _ _ hfe.1 (by simpa using hfe.2)
            (by simpa using hd)]
          exact acct_bound State.float part b rest (by simp)
    case ident =>
      by_cases hc : idCharB b = true
      · rw [step_ident_cont _ _ _ _ hc]
        exact acct_push b rest _ State.ident part (by simp) _
          (ih State.ident (part ++ [b]) (by simp))
      · rw [step_ident_bound _ _ _ _ (by simpa using hc)]
        exact acct_bound State.ident part b rest (by simp)
    case error =>
      by_cases hc : idCharB b = true
      · rw [step_error_cont _ _ _ _ hc]
        exact acct_push b rest _ State.error part (by simp) _
          (ih State.error (part ++ [b]) (by simp))
      · rw [step_error_bound _ _ _ _ (by simpa using hc)]
        exact acct_bound State.error part b rest (by simp)

/-! ## The sentinel space: the scan never hits end-of-stream mid-token -/

theorem no_eos_sentinel (pre : List Nat) :
    ∀ (st : State) (part : List Nat) (slot : Option Nat) (l2 : Lexer),
    st ≠ State.start → (scanGo st part slot (pre ++ [32])).1 ≠ NextRes.eos l2 := by
  induction pre with
  | nil =>
    intro st part slot l2 hst
    cases st
    · exact absurd rfl hst
    · rw [List.nil_append, step_ident_bound _ _ _ _ (by decide)]
      exact bound_not_eos _ _ _ _ _ _
    · rw [List.nil_append, step_int_bound _ _ _ _ (by decide) (by decide) (by decide)]
      exact bound_not_eos _ _ _ _ _ _
    · rw [List.nil_append, step_float_bound _ _ _ _ (by decide) (by decide) (by decide)]
      exact bound_not_eos _ _ _ _ _ _
    · rw [List.nil_append, step_error_bound _ _ _ _ (by decide)]
      exact bound_not_eos _ _ _ _ _ _
  | cons c pre2 ih =>
    intro st part slot l2 hst
    rw [List.cons_append]
    cases st
    · exact absurd rfl hst
    case ident =>
      by_cases hc : idCharB c = true
      · rw [step_ident_cont _ _ _ _ hc]
        exact ih State.ident _ slot l2 (by simp)
      · rw [step_ident_bound _ _ _ _ (by simpa using hc)]
        exact bound_not_eos _ _ _ _ _ _
    case int =>
      by_cases h46 : c = 46
      · subst h46
        rw [step_int_dot]
        exact ih State.float _ slot l2 (by simp)
      · by_cases hl : letterB c = true
        · rw [step_int_letter _ _ _ _ hl]
          exact ih State.error _ slot l2 (by simp)
        · by_cases hd : digitB c = true
          · rw [step_int_digit _ _ _ _ hd]
            exact ih State.int _ slot l2 (by simp)
          · rw [step_int_bound _ _ _ _ h46 (by simpa using hl) (by simpa using hd)]
            exact bound_not_eos _ _ _ _ _ _
    case float =>
      by_cases hfe : c = 46 ∨ letterB c = true
      · rw [step_float_err _ _ _ _ hfe]
        exact ih State.error _ slot l2 (by simp)
      · push_neg at hfe
        by_cases hd : digitB c = true
        · rw [step_float_digit _ _ _ _ hd]
          exact ih State.float _ slot l2 (by simp)
        · rw [step_float_bound _ _ _ _ hfe.1 (by simpa using hfe.2) (by simpa using hd)]
          exact bound_not_eos _ _ _ _ _ _
    case error =>
      by_cases hc : idCharB c = true
      · rw [step_error_cont _ _ _ _ hc]
        exact ih State.error _ slot l2 (by simp)
      · rw [step_error_bound _ _ _ _ (by simpa using hc)]
        exact bound_not_eos _ _ _ _ _ _

theorem bound_item_state (st : State) (part : List Nat) (b : Nat)
    (rest : List Nat) (hst : st ≠ State.start) (i : Item) (l2 : Lexer)
    (h : (bound st part none b rest).1 = NextRes.item i l2) :
    l2 = ⟨rest, some b⟩ := by
  have hb : bound st part none b rest =
      (match flushTok st part with
        | Sum.inl k => (NextRes.fault k, [], part)
        | Sum.inr i => (NextRes.item i ⟨rest, some b⟩, [], part)) := by
    cases st
    · exact absurd rfl hst
    all_goals rfl
  rcases hf : flushTok st part with k | i2 <;> rw [hf] at hb <;> rw [hb] at h
  · simp at h
  · injection h with h1 h2
    exact h2.symm

/-- An item emitted while scanning a sentinel-terminated stream leaves a
sentinel-terminated stream behind. -/
theorem item_sentinel (pre : List Nat) :
    ∀ (st : State) (part : List Nat) (i : Item) (l2 : Lexer),
    (scanGo st part none (pre ++ [32])).1 = NextRes.item i l2 →
    ∃ pre2, streamOf l2 = pre2 ++ [32] := by
  induction pre with
  | nil =>
    intro st part i l2 h
    cases st
    case start =>
      rw [List.nil_append, step_start_ws _ _ _ _ (by decide)] at h
      simp [step_nil] at h
    case ident =>
      rw [List.nil_append, step_ident_bound _ _ _ _ (by decide)] at h
      exact ⟨[], by rw [bound_item_state _ _ _ _ (by simp) _ _ h]; rfl⟩
    case int =>
      rw [List.nil_append,
        step_int_bound _ _ _ _ (by decide) (by decide) (by decide)] at h
      exact ⟨[], by rw [bound_item_state _ _ _ _ (by simp) _ _ h]; rfl⟩
    case float =>
      rw [List.nil_append,
        step_float_bound _ _ _ _ (by decide) (by decide) (by decide)] at h
      exact ⟨[], by rw [bound_item_state _ _ _ _ (by simp) _ _ h]; rfl⟩
    case error =>
      rw [List.nil_append, step_error_bound _ _ _ _ (by decide)] at h
      exact ⟨[], by rw [bound_item_state _ _ _ _ (by simp) _ _ h]; rfl⟩
  | cons c pre2 ih =>
    intro st part i l2 h
    rw [List.cons_append] at h
    cases st
    case start =>
      by_cases hw : wsB c = true
      · rw [step_start_ws _ _ _ _ hw] at h
        exact ih State.start part i l2 h
      · by_cases h40 : c = 40
        · subst h40
          rw [step_start_lpar] at h
          injection h with h1 h2
          exact ⟨pre2, by rw [← h2]; rfl⟩
        · by_cases h41 : c = 41
          · subst h41
            rw [step_start_rpar] at h
            injection h with h1 h2
            exact ⟨pre2, by rw [← h2]; rfl⟩
          · by_cases hid : letterB c = true ∨ c = 95
            · rw [step_start_id _ _ _ _ hid] at h
              exact ih State.ident _ i l2 h
            · push_neg at hid
              by_cases hd : digitB c = true
              · rw [step_start_digit _ _ _ _ hd] at h
                exact ih State.int _ i l2 h
              · by_cases h46 : c = 46
                · subst h46
                  rw [step_start_dot] at h
                  exact ih State.float _ i l2 h
                · rw [step_start_other _ none c _ (by simpa using hw) h40 h41
                    (by simpa using hid.1) hid.2 (by simpa using hd) h46] at h
                  injection h with h1 h2
                  exact ⟨pre2, by rw [← h2]; rfl⟩
    case ident =>
      by_cases hc : idCharB c = true
      · rw [step_ident_cont _ _ _ _ hc] at h
        exact ih State.ident _ i l2 h
      · rw [step_ident_bound _ _ _ _ (by simpa using hc)] at h
        exact ⟨c :: pre2,
          by rw [bound_item_state _ _ _ _ (by simp) _ _ h]; rfl⟩
    case int =>
      by_cases h46 : c = 46
      · subst h46
        rw [step_int_dot] at h
        exact ih State.float _ i l2 h
      · by_cases hl : letterB c = true
        · rw [step_int_letter _ _ _ _ hl] at h
          exact ih State.error _ i l2 h
        · by_cases hd : digitB c = true
          · rw [step_int_digit _ _ _ _ hd] at h
            exact ih State.int _ i l2 h
          · rw [step_int_bound _ _ _ _ h46 (by simpa using hl)
              (by simpa using hd)] at h
            exact ⟨c :: pre2,
              by rw [bound_item_state _ _ _ _ (by simp) _ _ h]; rfl⟩
    case float =>
      by_cases hfe : c = 46 ∨ letterB c = true
      · rw [step_float_err _ _ _ _ hfe] at h
        exact ih State.error _ i l2 h
      · push_neg at hfe
        by_cases hd : digitB c = true
        · rw [step_float_digit _ _ _ _ hd] at h
          exact ih State.float _ i l2 h
        · rw [step_float_bound _ _ _ _ hfe.1 (by simpa using hfe.2)
            (by simpa using hd)] at h
          exact ⟨c :: pre2,
            by rw [bound_item_state _ _ _ _ (by simp) _ _ h]; rfl⟩
    case error =>
      by_cases hc : idCharB c = true
      · rw [step_error_cont _ _ _ _ hc] at h
        exact ih State.error _ i l2 h
      · rw [step_error_bound _ _ _ _ (by simpa using hc)] at h
        exact ⟨c :: pre2,
          by rw [bound_item_state _ _ _ _ (by simp) _ _ h]; rfl⟩

/-- When a call on a sentinel-terminated stream signals end, everything it
consumed was skipped whitespace and nothing was buffered. -/
theorem eos_ghost (pre : List Nat) :
    ∀ l2, (scanGo State.start [] none (pre ++ [32])).1 = NextRes.eos l2 →
    (scanGo State.start [] none (pre ++ [32])).2.1 = pre ++ [32] ∧
    (scanGo State.start [] none (pre ++ [32])).2.2 = [] := by
  induction pre with
  | nil =>
    intro l2 _
    have e : scanGo State.start [] none ([] ++ [32]) =
        (NextRes.eos ⟨[], none⟩, [32], []) := by decide
    rw [e]
    exact ⟨rfl, rfl⟩
  | cons c pre2 ih =>
    intro l2 h
    rw [List.cons_append] at h ⊢
    by_cases hw : wsB c = true
    · rw [step_start_ws _ _ _ _ hw] at h ⊢
      obtain ⟨h1, h2⟩ := ih l2 h
      refine ⟨?_, h2⟩
      show c :: (scanGo State.start [] none (pre2 ++ [32])).2.1 = c :: (pre2 ++ [32])
      rw [h1]
    · exfalso
      by_cases h40 : c = 40
      · subst h40; rw [step_start_lpar] at h; simp at h
      · by_cases h41 : c = 41
        · subst h41; rw [step_start_rpar] at h; simp at h
        · by_cases hid : letterB c = true ∨ c = 95
          · rw [step_start_id _ _ _ _ hid] at h
            exact no_eos_sentinel pre2 State.ident _ none l2 (by simp) h
          · push_neg at hid
            by_cases hd : digitB c = true
            · rw [step_start_digit _ _ _ _ hd] at h
              exact no_eos_sentinel pre2 State.int _ none l2 (by simp) h
            · by_cases h46 : c = 46
              · subst h46
                rw [step_start_dot] at h
                exact no_eos_sentinel pre2 State.float _ none l2 (by simp) h
              · rw [step_start_other _ none c _ (by simpa using hw) h40 h41
                  (by simpa using hid.1) hid.2 (by simpa using hd) h46] at h
                simp at h

/-- `next()` is the scan of the pending stream (pushback byte first). -/
theorem lexNextFull_eq (l : Lexer) :
    lexNextFull l = scanGo State.start [] none (streamOf l) := by
  rcases l with ⟨it, u⟩
  cases u <;> rfl

/-- Driving a sentinel-terminated iterator to a normal end accounts for
every byte: the stream is exactly the concatenation of the per-item
whitespace/lexeme records followed by the trailing whitespace, which is a
whitespace run ending in the sentinel. -/
theorem run_acct (fuel : Nat) :
    ∀ (l : Lexer) (pre : List Nat) (steps : List (List Nat × List Nat × Item))
      (tws : List Nat),
    streamOf l = pre ++ [32] →
    lexRunF fuel l = some (RunOut.done steps tws) →
    streamOf l = stepsConcat steps ++ tws ∧ (∃ t2, tws = t2 ++ [32]) ∧
    wsRun tws = true ∧ ∀ x ∈ steps, wsRun x.1 = true := by
  induction fuel with
  | zero =>
    intro l pre steps tws hs hrun
    simp [lexRunF] at hrun
  | succ fuel ih =>
    intro l pre steps tws hs hrun
    have hfull := lexNextFull_eq l
    rw [hs] at hfull
    simp only [lexRunF] at hrun
    rw [hfull] at hrun
    rcases hres : scanGo State.start [] none (pre ++ [32]) with ⟨res, ws, lex⟩
    rw [hres] at hrun
    have hacct := scan_acct (pre ++ [32]) State.start [] (fun _ => rfl)
    rw [hres] at hacct
    obtain ⟨ext, he, hws, _, heos, hitem⟩ := hacct
    cases res with
    | fault k => simp at hrun
    | eos l2 =>
      have hg := eos_ghost pre l2 (by rw [hres])
      rw [hres] at hg
      obtain ⟨hg1, hg2⟩ := hg
      simp only at hg1 hg2
      obtain ⟨hsteps, htws⟩ : [] = steps ∧ ws ++ lex = tws := by
        simpa using hrun
      subst hsteps
      subst htws
      rw [hs, hg1, hg2]
      refine ⟨by simp [stepsConcat], ⟨pre, by simp⟩, ?_, by simp⟩
      have := hws
      rw [hg1] at this
      simpa using this
    | item i l2 =>
      rcases hrec : lexRunF fuel l2 with _ | ro
      · simp [hrec] at hrun
      · cases ro with
        | fault steps2 k => simp [hrec] at hrun
        | done steps2 tws2 =>
          obtain ⟨hsteps, htws⟩ : (ws, lex, i) :: steps2 = steps ∧ tws2 = tws := by
            simpa [hrec] using hrun
          subst hsteps
          subst htws
          obtain ⟨pre2, hl2⟩ := item_sentinel pre State.start [] i l2 (by rw [hres])
          obtain ⟨hcat2, ht2, hwst2, hsteps2⟩ := ih l2 pre2 steps2 tws2 hl2 hrec
          have hstream : pre ++ [32] = ws ++ ext ++ streamOf l2 :=
            hitem i l2 rfl
          have hlex : lex = ext := by simpa using he
          refine ⟨?_, ht2, hwst2, ?_⟩
          · rw [hs, hstream, hcat2]
            simp [stepsConcat, hlex]
          · intro x hx
            rcases List.mem_cons.mp hx with hx | hx
            · rw [hx]
              exact hws
            · exact hsteps2 x hx

/-- Claim C2 (amended): for every input whose scan completes without a
numeric-conversion panic (the driver returns `done`), concatenating, in
input order, each emitted item's skipped-whitespace run and source lexeme,
followed by the trailing skipped whitespace of the final call (everything
before the internal sentinel space), reproduces the original input
byte-for-byte — no byte is dropped or duplicated. -/
theorem c2_round_trip (input : List Nat) (fuel : Nat)
    (steps : List (List Nat × List Nat × Item)) (tws : List Nat)
    (h : lexRunF fuel (mkLexer input) = some (RunOut.done steps tws)) :
    input = stepsConcat steps ++ tws.dropLast ∧
    (∀ x ∈ steps, wsRun x.1 = true) ∧ wsRun tws.dropLast = true := by
  have hs : streamOf (mkLexer input) = input ++ [32] := rfl
  obtain ⟨hcat, ⟨t2, ht⟩, hwst, hsteps⟩ :=
    run_acct fuel (mkLexer input) input steps tws hs h
  subst ht
  have hdrop : (t2 ++ [32]).dropLast = t2 := by simp
  rw [hdrop]
  rw [hs] at hcat
  have hinput : input = stepsConcat steps ++ t2 := by
    have hcat2 : input ++ [32] = (stepsConcat steps ++ t2) ++ [32] := by
      simpa [List.append_assoc] using hcat
    exact List.append_cancel_right hcat2
  have hwst2 : wsRun t2 = true := by
    simp [wsRun] at hwst ⊢
    intro x hx
    exact hwst.1 x hx
  exact ⟨hinput, hsteps, hwst2⟩

/-- Witness for the amended C2 at the concrete input `"(a 1)"`. -/
theorem c2_round_trip_witness :
    ([40, 97, 32, 49, 41] : List Nat) =
      stepsConcat [([], [40], Item.ok Token.lparen),
        ([], [97], Item.ok (Token.ident [97])),
        ([32], [49], Item.ok (Token.int 1)),
        ([], [41], Item.ok Token.rparen)] ++ ([32] : List Nat).dropLast ∧
    (∀ x ∈ [(([] : List Nat), ([40] : List Nat), Item.ok Token.lparen),
        ([], [97], Item.ok (Token.ident [97])),
        ([32], [49], Item.ok (Token.int 1)),
        ([], [41], Item.ok Token.rparen)], wsRun x.1 = true) ∧
    wsRun ([32] : List Nat).dropLast = true :=
  c2_round_trip [40, 97, 32, 49, 41] 8
    [([], [40], Item.ok Token.lparen), ([], [97], Item.ok (Token.ident [97])),
      ([32], [49], Item.ok (Token.int 1)), ([], [41], Item.ok Token.rparen)]
    [32] (by decide)

/-! ## Step lemmas for the specification machine -/

theorem spec_nil_flush (st : State) (part : List Nat) (hst : st ≠ State.start) :
    specScan st part [] =
      (match flushTok st part with
        | Sum.inl k => SpecRes.fault k
        | Sum.inr i => SpecRes.item i []) := by
  cases st
  · exact absurd rfl hst
  all_goals rfl

theorem spec_start_ws (part : List Nat) (b : Nat) (t : List Nat)
    (h : wsB b = true) :
    specScan State.start part (b :: t) = specScan State.start part t := by
  simp only [specScan, h, if_true]

theorem spec_start_lpar (part : List Nat) (t : List Nat) :
    specScan State.start part (40 :: t) =
      SpecRes.item (Item.ok Token.lparen) t := by
  simp [specScan, wsB]

theorem spec_start_rpar (part : List Nat) (t : List Nat) :
    specScan State.start part (41 :: t) =
      SpecRes.item (Item.ok Token.rparen) t := by
  simp [specScan, wsB]

theorem spec_start_id (part : List Nat) (b : Nat) (t : List Nat)
    (h : letterB b = true ∨ b = 95) :
    specScan State.start part (b :: t) =
      specScan State.ident (part ++ [b]) t := by
  have hb : (97 ≤ b ∧ b ≤ 122) ∨ (65 ≤ b ∧ b ≤ 90) ∨ b = 95 := by
    rcases h with h | h
    · rcases (letterB_iff b).mp h with h | h
      · exact Or.inl h
      · exact Or.inr (Or.inl h)
    · exact Or.inr (Or.inr h)
  simp only [specScan]
  rw [if_neg (by simp [wsB]; omega), if_neg (by simp; omega),
    if_neg (by simp; omega), if_pos (by simp [letterB]; omega)]

theorem spec_start_digit (part : List Nat) (b : Nat) (t : List Nat)
    (h : digitB b = true) :
    specScan State.start part (b :: t) =
      specScan State.int (part ++ [b]) t := by
  have hb : 48 ≤ b ∧ b ≤ 57 := (digitB_iff b).mp h
  simp only [specScan]
  rw [if_neg (by simp [wsB]; omega), if_neg (by simp; omega),
    if_neg (by simp; omega), if_neg (by simp [letterB]; omega), if_pos h]

theorem spec_start_dot (part : List Nat) (t : List Nat) :
    specScan State.start part (46 :: t) =
      specScan State.float (part ++ [46]) t := by
  simp [specScan, wsB, letterB, digitB]

theorem spec_start_other (part : List Nat) (b : Nat) (t : List Nat)
    (hw : wsB b = false) (h40 : b ≠ 40) (h41 : b ≠ 41)
    (hl : letterB b = false) (h95 : b ≠ 95) (hd : digitB b = false)
    (h46 : b ≠ 46) :
    specScan State.start part (b :: t) = SpecRes.item (Item.err [b]) t := by
  simp only [specScan]
  rw [if_neg (by simp [hw]), if_neg (by simp [h40]), if_neg (by simp [h41]),
    if_neg (by simp [hl, h95]), if_neg (by simp [hd]), if_neg (by simp [h46])]

theorem spec_int_dot (part : List Nat) (t : List Nat) :
    specScan State.int part (46 :: t) =
      specScan State.float (part ++ [46]) t := by
  simp [specScan]

theorem spec_int_letter (part : List Nat) (b : Nat) (t : List Nat)
    (h : letterB b = true) :
    specScan State.int part (b :: t) =
      specScan State.error (part ++ [b]) t := by
  have hb : (97 ≤ b ∧ b ≤ 122) ∨ (65 ≤ b ∧ b ≤ 90) := (letterB_iff b).mp h
  simp only [specScan]
  rw [if_neg (by simp; omega), if_pos h]

theorem spec_int_digit (part : List Nat) (b : Nat) (t : List Nat)
    (h : digitB b = true) :
    specScan State.int part (b :: t) =
      specScan State.int (part ++ [b]) t := by
  have hb : 48 ≤ b ∧ b ≤ 57 := (digitB_iff b).mp h
  simp only [specScan]
  rw [if_neg (by simp; omega), if_neg (by simp [letterB]; omega), if_pos h]

theorem spec_int_bound (part : List Nat) (b : Nat) (t : List Nat)
    (h46 : b ≠ 46) (hl : letterB b = false) (hd : digitB b = false) :
    specScan State.int part (b :: t) =
      (match flushTok State.int part with
        | Sum.inl k => SpecRes.fault k
        | Sum.inr i => SpecRes.item i (b :: t)) := by
  simp only [specScan]
  rw [if_neg (by simp [h46]), if_neg (by simp [hl]), if_neg (by simp [hd])]

theorem spec_float_err (part : List Nat) (b : Nat) (t : List Nat)
    (h : b = 46 ∨ letterB b = true) :
    specScan State.float part (b :: t) =
      specScan State.error (part ++ [b]) t := by
  simp only [specScan]
  rw [if_pos (by rcases h with h | h <;> simp [h])]

theorem spec_float_digit (part : List Nat) (b : Nat) (t : List Nat)
    (h : digitB b = true) :
    specScan State.float part (b :: t) =
      specScan State.float (part ++ [b]) t := by
  have hb : 48 ≤ b ∧ b ≤ 57 := (digitB_iff b).mp h
  simp only [specScan]
  rw [if_neg (by simp [letterB]; omega), if_pos h]

theorem spec_float_bound (part : List Nat) (b : Nat) (t : List Nat)
    (h46 : b ≠ 46) (hl : letterB b = false) (hd : digitB b = false) :
    specScan State.float part (b :: t) =
      (match flushTok State.float part with
        | Sum.inl k => SpecRes.fault k
        | Sum.inr i => SpecRes.item i (b :: t)) := by
  simp only [specScan]
  rw [if_neg (by simp [h46, hl]), if_neg (by simp [hd])]

theorem spec_ident_cont (part : List Nat) (b : Nat) (t : List Nat)
    (h : idCharB b = true) :
    specScan State.ident part (b :: t) =
      specScan State.ident (part ++ [b]) t := by
  simp only [specScan, h, if_true]

theorem spec_ident_bound (part : List Nat) (b : Nat) (t : List Nat)
    (h : idCharB b = false) :
    specScan State.ident part (b :: t) =
      (match flushTok State.ident part with
        | Sum.inl k => SpecRes.fault k
        | Sum.inr i => SpecRes.item i (b :: t)) := by
  simp only [specScan, h, Bool.false_eq_true, if_false]

theorem spec_error_cont (part : List Nat) (b : Nat) (t : List Nat)
    (h : idCharB b = true) :
    specScan State.error part (b :: t) =
      specScan State.error (part ++ [b]) t := by
  simp only [specScan, h, if_true]

theorem spec_error_bound (part : List Nat) (b : Nat) (t : List Nat)
    (h : idCharB b = false) :
    specScan State.error part (b :: t) =
      (match flushTok State.error part with
        | Sum.inl k => SpecRes.fault k
        | Sum.inr i => SpecRes.item i (b :: t)) := by
  simp only [specScan, h, Bool.false_eq_true, if_false]

/-! ## Simulation: the sentinel-based code realises the EOF-flush machine -/

theorem bound_flush_inl (st : State) (part : List Nat) (b : Nat)
    (rest : List Nat) (k : FaultKind) (hst : st ≠ State.start)
    (hf : flushTok st part = Sum.inl k) :
    (bound st part none b rest).1 = NextRes.fault k := by
  have hb : bound st part none b rest =
      (match flushTok st part with
        | Sum.inl k => (NextRes.fault k, [], part)
        | Sum.inr i => (NextRes.item i ⟨rest, some b⟩, [], part)) := by
    cases st
    · exact absurd rfl hst
    all_goals rfl
  rw [hb, hf]

theorem bound_flush_inr (st : State) (part : List Nat) (b : Nat)
    (rest : List Nat) (i : Item) (hst : st ≠ State.start)
    (hf : flushTok st part = Sum.inr i) :
    (bound st part none b rest).1 = NextRes.item i ⟨rest, some b⟩ := by
  have hb : bound st part none b rest =
      (match flushTok st part with
        | Sum.inl k => (NextRes.fault k, [], part)
        | Sum.inr i => (NextRes.item i ⟨rest, some b⟩, [], part)) := by
    cases st
    · exact absurd rfl hst
    all_goals rfl
  rw [hb, hf]

/-- One call of the code's scan on a sentinel-terminated stream corresponds
to one scan of the specification machine on the bare input: same end/fault
behaviour, same emitted item, and the code's successor stream is the spec
machine's remainder plus the sentinel. -/
theorem scan_sim (s : List Nat) :
    ∀ (st : State) (part : List Nat),
    ((∃ l2, (scanGo st part none (s ++ [32])).1 = NextRes.eos l2) ∧
      specScan st part s = SpecRes.eos) ∨
    (∃ k, (scanGo st part none (s ++ [32])).1 = NextRes.fault k ∧
      specScan st part s = SpecRes.fault k) ∨
    (∃ i l2 r2, (scanGo st part none (s ++ [32])).1 = NextRes.item i l2 ∧
      specScan st part s = SpecRes.item i r2 ∧ streamOf l2 = r2 ++ [32]) := by
  induction s with
  | nil =>
    intro st part
    cases st
    case start =>
      refine Or.inl ⟨⟨⟨[], none⟩, ?_⟩, rfl⟩
      rw [List.nil_append, step_start_ws _ _ _ _ (by decide)]
      simp [step_nil]
    all_goals
      rw [List.nil_append]
    case ident =>
      rw [step_ident_bound _ _ _ _ (by decide)]
      rcases hf : flushTok State.ident part with k | i
      · exact Or.inr (Or.inl ⟨k, bound_flush_inl _ _ _ _ _ (by simp) hf,
          by rw [spec_nil_flush _ _ (by simp), hf]⟩)
      · exact Or.inr (Or.inr ⟨i, ⟨[], some 32⟩, [],
          bound_flush_inr _ _ _ _ _ (by simp) hf,
          by rw [spec_nil_flush _ _ (by simp), hf], rfl⟩)
    case int =>
      rw [step_int_bound _ _ _ _ (by decide) (by decide) (by decide)]
      rcases hf : flushTok State.int part with k | i
      · exact Or.inr (Or.inl ⟨k, bound_flush_inl _ _ _ _ _ (by simp) hf,
          by rw [spec_nil_flush _ _ (by simp), hf]⟩)
      · exact Or.inr (Or.inr ⟨i, ⟨[], some 32⟩, [],
          bound_flush_inr _ _ _ _ _ (by simp) hf,
          by rw [spec_nil_flush _ _ (by simp), hf], rfl⟩)
    case float =>
      rw [step_float_bound _ _ _ _ (by decide) (by decide) (by decide)]
      rcases hf : flushTok State.float part with k | i
      · exact Or.inr (Or.inl ⟨k, bound_flush_inl _ _ _ _ _ (by simp) hf,
          by rw [spec_nil_flush _ _ (by simp), hf]⟩)
      · exact Or.inr (Or.inr ⟨i, ⟨[], some 32⟩, [],
          bound_flush_inr _ _ _ _ _ (by simp) hf,
          by rw [spec_nil_flush _ _ (by simp), hf], rfl⟩)
    case error =>
      rw [step_error_bound _ _ _ _ (by decide)]
      rcases hf : flushTok State.error part with k | i
      · exact Or.inr (Or.inl ⟨k, bound_flush_inl _ _ _ _ _ (by simp) hf,
          by rw [spec_nil_flush _ _ (by simp), hf]⟩)
      · exact Or.inr (Or.inr ⟨i, ⟨[], some 32⟩, [],
          bound_flush_inr _ _ _ _ _ (by simp) hf,
          by rw [spec_nil_flush _ _ (by simp), hf], rfl⟩)
  | cons c s2 ih =>
    intro st part
    rw [List.cons_append]
    cases st
    case start =>
      by_cases hw : wsB c = true
      · rw [step_start_ws _ _ _ _ hw, spec_start_ws _ _ _ hw]
        exact ih State.start part
      · by_cases h40 : c = 40
        · subst h40
          rw [step_start_lpar, spec_start_lpar]
          exact Or.inr (Or.inr ⟨Item.ok Token.lparen, ⟨s2 ++ [32], none⟩, s2,
            rfl, rfl, rfl⟩)
        · by_cases h41 : c = 41
          · subst h41
            rw [step_start_rpar, spec_start_rpar]
            exact Or.inr (Or.inr ⟨Item.ok Token.rparen, ⟨s2 ++ [32], none⟩, s2,
              rfl, rfl, rfl⟩)
          · by_cases hid : letterB c = true ∨ c = 95
            · rw [step_start_id _ _ _ _ hid, spec_start_id _ _ _ hid]
              exact ih State.ident (part ++ [c])
            · push_neg at hid
              by_cases hd : digitB c = true
              · rw [step_start_digit _ _ _ _ hd, spec_start_digit _ _ _ hd]
                exact ih State.int (part ++ [c])
              · by_cases h46 : c = 46
                · subst h46
                  rw [step_start_dot, spec_start_dot]
                  exact ih State.float (part ++ [46])
                · rw [step_start_other _ none c _ (by simpa using hw) h40 h41
                    (by simpa using hid.1) hid.2 (by simpa using hd) h46,
                    spec_start_other _ c _ (by simpa using hw) h40 h41
                    (by simpa using hid.1) hid.2 (by simpa using hd) h46]
                  exact Or.inr (Or.inr ⟨Item.err [c], ⟨s2 ++ [32], none⟩, s2,
                    rfl, rfl, rfl⟩)
    case ident =>
      by_cases hc : idCharB c = true
      · rw [step_ident_cont _ _ _ _ hc, spec_ident_cont _ _ _ hc]
        exact ih State.ident (part ++ [c])
      · rw [step_ident_bound _ _ _ _ (by simpa using hc),
          spec_ident_bound _ _ _ (by simpa using hc)]
        rcases hf : flushTok State.ident part with k | i
        · exact Or.inr (Or.inl ⟨k, bound_flush_inl _ _ _ _ _ (by simp) hf,
            rfl⟩)
        · exact Or.inr (Or.inr ⟨i, ⟨s2 ++ [32], some c⟩, c :: s2,
            bound_flush_inr _ _ _ _ _ (by simp) hf, rfl, rfl⟩)
    case int =>
      by_cases h46 : c = 46
      · subst h46
        rw [step_int_dot, spec_int_dot]
        exact ih State.float (part ++ [46])
      · by_cases hl : letterB c = true
        · rw [step_int_letter _ _ _ _ hl, spec_int_letter _ _ _ hl]
          exact ih State.error (part ++ [c])
        · by_cases hd : digitB c = true
          · rw [step_int_digit _ _ _ _ hd, spec_int_digit _ _ _ hd]
            exact ih State.int (part ++ [c])
          · rw [step_int_bound _ _ _ _ h46 (by simpa using hl) (by simpa using hd),
              spec_int_bound _ _ _ h46 (by simpa using hl) (by simpa using hd)]
            rcases hf : flushTok State.int part with k | i
            · exact Or.inr (Or.inl ⟨k, bound_flush_inl _ _ _ _ _ (by simp) hf,
                rfl⟩)
            · exact Or.inr (Or.inr ⟨i, ⟨s2 ++ [32], some c⟩, c :: s2,
                bound_flush_inr _ _ _ _ _ (by simp) hf, rfl, rfl⟩)
    case float =>
      by_cases hfe : c = 46 ∨ letterB c = true
      · rw [step_float_err _ _ _ _ hfe, spec_float_err _ _ _ hfe]
        exact ih State.error (part ++ [c])
      · push_neg at hfe
        by_cases hd : digitB c = true
        · rw [step_float_digit _ _ _ _ hd, spec_float_digit _ _ _ hd]
          exact ih State.float (part ++ [c])
        · rw [step_float_bound _ _ _ _ hfe.1 (by simpa using hfe.2)
            (by simpa using hd),
            spec_float_bound _ _ _ hfe.1 (by simpa using hfe.2)
            (by simpa using hd)]
          rcases hf : flushTok State.float part with k | i
          · exact Or.inr (Or.inl ⟨k, bound_flush_inl _ _ _ _ _ (by simp) hf,
              rfl⟩)
          · exact Or.inr (Or.inr ⟨i, ⟨s2 ++ [32], some c⟩, c :: s2,
              bound_flush_inr _ _ _ _ _ (by simp) hf, rfl, rfl⟩)
    case error =>
      by_cases hc : idCharB c = true
      · rw [step_error_cont _ _ _ _ hc, spec_error_cont _ _ _ hc]
        exact ih State.error (part ++ [c])
      · rw [step_error_bound _ _ _ _ (by simpa using hc),
          spec_error_bound _ _ _ (by simpa using hc)]
        rcases hf : flushTok State.error part with k | i
        · exact Or.inr (Or.inl ⟨k, bound_flush_inl _ _ _ _ _ (by simp) hf,
            rfl⟩)
        · exact Or.inr (Or.inr ⟨i, ⟨s2 ++ [32], some c⟩, c :: s2,
            bound_flush_inr _ _ _ _ _ (by simp) hf, rfl, rfl⟩)

/-- The whole runs correspond, fuel for fuel: the code's driver over the
sentinel-chained iterator is observably the specification machine's driver
over the bare input. -/
theorem run_sim (fuel : Nat) :
    ∀ (l : Lexer) (r : List Nat), streamOf l = r ++ [32] →
    runObs (lexRunF fuel l) = specRunF fuel r := by
  induction fuel with
  | zero => intro l r _; rfl
  | succ fuel ih =>
    intro l r hs
    have hfull := lexNextFull_eq l
    rw [hs] at hfull
    simp only [lexRunF, specRunF]
    rw [hfull]
    rcases hres : scanGo State.start [] none (r ++ [32]) with ⟨res, ws, lex⟩
    rcases scan_sim r State.start [] with ⟨⟨l2, hc⟩, hsp⟩ | ⟨k, hc, hsp⟩ |
      ⟨i, l2, r2, hc, hsp, hl2⟩ <;> rw [hres] at hc <;> rw [hsp]
    · have hc2 : res = NextRes.eos l2 := hc
      subst hc2
      simp [runObs]
    · have hc2 : res = NextRes.fault k := hc
      subst hc2
      simp [runObs]
    · have hc2 : res = NextRes.item i l2 := hc
      subst hc2
      have hrecobs := ih l2 r2 hl2
      rcases hrec : lexRunF fuel l2 with _ | ro
      · rw [hrec] at hrecobs
        simp only [hrec]
        rw [← hrecobs]
        rfl
      · rw [hrec] at hrecobs
        cases ro with
        | done steps2 tws2 =>
          simp only [hrec]
          rw [← hrecobs]
          simp [runObs]
        | fault steps2 k =>
          simp only [hrec]
          rw [← hrecobs]
          simp [runObs]

/-- Claim C6: end of input acts as an implicit boundary.  The code realises
this with the sentinel space chained by `From`: for every fuel and every
input, the observable outcome of driving the code's lexer equals that of
the specification machine, which scans the bare input, flushes the buffered
partial token when exhausted in a non-`Start` state exactly as a boundary
byte would, and signals termination when exhausted in `Start` with nothing
buffered — including the empty input. -/
theorem c6_eof_boundary (fuel : Nat) (input : List Nat) :
    runObs (lexRunF fuel (mkLexer input)) = specRunF fuel input :=
  run_sim fuel (mkLexer input) input rfl

end BasicLisp
